import Mathlib

/-!
# Trapezoidal velocity movement queue (klippy/chelper/trapq.c)

A shallow embedding of `trapq.c`.  The C `double` is modelled by the elements
of a linearly ordered field `K` (exact arithmetic: no rounding, no NaN, no
infinities); every finite `double` is a rational number, so `K := ℚ` covers
every finite input the C code can receive and evaluates.  The intrusive
doubly linked list `tq->moves` is modelled by a Lean `List`, head first:
`list_add_tail` is `· ++ [m]`, `list_first_entry` followed by `list_del` drops
the head.
-/

namespace Trapq

/-- The C `struct coord { double x, y, z; }`. -/
structure coord (K : Type) where
  x : K
  y : K
  z : K
deriving DecidableEq, Repr

/-- The C `struct move` without its list node. -/
structure move (K : Type) where
  print_time : K
  move_t : K
  start_v : K
  half_accel : K
  start_pos : coord K
  axes_r : coord K
deriving DecidableEq, Repr

/-- The C `struct trapq { struct list_head moves; }`. -/
structure trapq (K : Type) where
  moves : List (move K)
deriving DecidableEq, Repr

variable {K : Type} [LinearOrderedField K]

/-- Source `move_alloc`: `malloc` followed by `memset(m, 0, sizeof(*m))`. -/
def move_alloc : move K :=
  { print_time := 0, move_t := 0, start_v := 0, half_accel := 0,
    start_pos := { x := 0, y := 0, z := 0 },
    axes_r := { x := 0, y := 0, z := 0 } }

/-- Source `move_get_distance`: `(m->start_v + m->half_accel * move_time) * move_time`. -/
def move_get_distance (m : move K) (move_time : K) : K :=
  (m.start_v + m.half_accel * move_time) * move_time

/-- Source `move_get_coord`: the XYZ coordinates given a time in a move. -/
def move_get_coord (m : move K) (move_time : K) : coord K :=
  let move_dist := move_get_distance m move_time
  { x := m.start_pos.x + m.axes_r.x * move_dist,
    y := m.start_pos.y + m.axes_r.y * move_dist,
    z := m.start_pos.z + m.axes_r.z * move_dist }

/-- Source `trapq_alloc`: a zeroed queue whose list is initialised empty. -/
def trapq_alloc : trapq K :=
  { moves := [] }

/-- Source `trapq_add_move`: `list_add_tail(&m->node, &tq->moves)`. -/
def trapq_add_move (tq : trapq K) (m : move K) : trapq K :=
  { moves := tq.moves ++ [m] }

/-- Source `trapq_append`.  The C locals `print_time` and `start_pos` are updated
inside the first two `if` blocks; the triple threaded through the three blocks
is (queue, print_time, start_pos).  The C test `if (accel_t)` on a `double` is
`accel_t != 0`. -/
def trapq_append (tq : trapq K) (print_time accel_t cruise_t decel_t
    start_pos_x start_pos_y start_pos_z axes_r_x axes_r_y axes_r_z
    start_v cruise_v accel : K) : trapq K :=
  let start_pos : coord K := { x := start_pos_x, y := start_pos_y, z := start_pos_z }
  let axes_r : coord K := { x := axes_r_x, y := axes_r_y, z := axes_r_z }
  let s1 : trapq K × K × coord K :=
    if accel_t ≠ 0 then
      let m : move K :=
        { (move_alloc : move K) with
          print_time := print_time, move_t := accel_t, start_v := start_v,
          half_accel := 0.5 * accel, start_pos := start_pos, axes_r := axes_r }
      (trapq_add_move tq m, print_time + accel_t, move_get_coord m accel_t)
    else (tq, print_time, start_pos)
  let s2 : trapq K × K × coord K :=
    if cruise_t ≠ 0 then
      let m : move K :=
        { (move_alloc : move K) with
          print_time := s1.2.1, move_t := cruise_t, start_v := cruise_v,
          half_accel := 0, start_pos := s1.2.2, axes_r := axes_r }
      (trapq_add_move s1.1 m, s1.2.1 + cruise_t, move_get_coord m cruise_t)
    else s1
  if decel_t ≠ 0 then
    let m : move K :=
      { (move_alloc : move K) with
        print_time := s2.2.1, move_t := decel_t, start_v := cruise_v,
        half_accel := -0.5 * accel, start_pos := s2.2.2, axes_r := axes_r }
    trapq_add_move s2.1 m
  else s2.1

/-- The `while` loop of `trapq_free_moves` on the list of moves: while the
list is not empty, look at the first entry; return if its end time is greater
than `print_time`, otherwise delete it and go on.  Each iteration removes one
entry, so the recursion is structural. -/
def free_moves_loop : List (move K) → K → List (move K)
  | [], _ => []
  | m :: rest, print_time =>
    if m.print_time + m.move_t > print_time then m :: rest
    else free_moves_loop rest print_time

/-- Source `trapq_free_moves`: free any moves older than `print_time`. -/
def trapq_free_moves (tq : trapq K) (print_time : K) : trapq K :=
  { moves := free_moves_loop tq.moves print_time }

/-- The moves that a call added: what stands in the queue `after` the call
behind the entries the queue `before` the call had. -/
def added_moves (before after : trapq K) : List (move K) :=
  after.moves.drop before.moves.length

/-- One call on a queue by its users: the planner's `trapq_append` with its
thirteen scalar arguments, or the scheduler's `trapq_free_moves` with its
cutoff. -/
inductive call (K : Type) where
  | append (print_time accel_t cruise_t decel_t
      start_pos_x start_pos_y start_pos_z axes_r_x axes_r_y axes_r_z
      start_v cruise_v accel : K)
  | free_moves (print_time : K)
deriving DecidableEq, Repr

/-- The queue after one call. -/
def run_call (tq : trapq K) : call K → trapq K
  | .append print_time accel_t cruise_t decel_t start_pos_x start_pos_y start_pos_z
      axes_r_x axes_r_y axes_r_z start_v cruise_v accel =>
    trapq_append tq print_time accel_t cruise_t decel_t start_pos_x start_pos_y
      start_pos_z axes_r_x axes_r_y axes_r_z start_v cruise_v accel
  | .free_moves print_time => trapq_free_moves tq print_time

/-- The queue after a sequence of calls, first call first. -/
def run_calls (tq : trapq K) : List (call K) → trapq K
  | [] => tq
  | c :: cs => run_calls (run_call tq c) cs

/-- The planner's side of the contract for one call on the queue `tq`: an
append has three non-negative durations and a `print_time` at or after the end
time of the current last move (no condition when the queue is empty); a
`trapq_free_moves` may come with any cutoff. -/
def call_in_order (tq : trapq K) : call K → Prop
  | .append print_time accel_t cruise_t decel_t _ _ _ _ _ _ _ _ _ =>
    0 ≤ accel_t ∧ 0 ≤ cruise_t ∧ 0 ≤ decel_t ∧
      ∀ l ∈ tq.moves.getLast?, l.print_time + l.move_t ≤ print_time
  | .free_moves _ => True

/-- Every call of the sequence keeps the planner's side of the contract on the
queue it is made on. -/
def calls_in_order (tq : trapq K) : List (call K) → Prop
  | [] => True
  | c :: cs => call_in_order tq c ∧ calls_in_order (run_call tq c) cs

end Trapq

/-!
# TFT serial link (src/generic/maxproui/serial_irq.c)

The C globals of `serial_irq.c` are the fields of one state record.  The
`uint8_t` variables are natural numbers, a store to one is taken `% 256`; the
two 96-byte arrays are lists.  C gives an access outside an array no meaning:
every function of the model returns, next to the new state, the accesses it
made to the array it works on (start index and length), so that a theorem can
say where they fall; a write that falls outside leaves the modelled list as it
is.  `readb`/`writeb` are plain loads and stores, the interrupt switch
`maxproui_enable_tx_irq` and the task wake-up `sched_wake_task` touch none of
the variables below and are left out.
-/

namespace Maxproui

/-- Source `#define RECEIVE_BUFF_SIZE 96`. -/
def RECEIVE_BUFF_SIZE : Nat := 96

/-- Source `#define TRANSMIT_BUFF_SIZE 96`. -/
def TRANSMIT_BUFF_SIZE : Nat := 96

/-- One access to an array: `len` bytes read or written from index `start` on. -/
inductive access where
  | read (start len : Nat)
  | write (start len : Nat)
deriving DecidableEq, Repr

/-- The access stays inside an array of `size` bytes. -/
def access_in_bounds (size : Nat) : access → Prop
  | .read start len => start + len ≤ size
  | .write start len => start + len ≤ size

/-- The static variables of `serial_irq.c`. -/
structure serial_state where
  tft_receive_buf : List Nat
  tft_receive_pos : Nat
  tft_dataCount : Nat
  tft_receivNewMsg : Nat
  tft_transmit_buf : List Nat
  tft_transmit_pos : Nat
  tft_transmit_max : Nat
deriving DecidableEq, Repr

/-- The state at start-up: the initialisers of the static variables, the
arrays zeroed. -/
def serial_init : serial_state :=
  { tft_receive_buf := List.replicate RECEIVE_BUFF_SIZE 0,
    tft_receive_pos := 0,
    tft_dataCount := 0,
    tft_receivNewMsg := 1,
    tft_transmit_buf := List.replicate TRANSMIT_BUFF_SIZE 0,
    tft_transmit_pos := 0,
    tft_transmit_max := 0 }

/-- C `memmove(&buf[dst], &buf[src], n)` inside one array. -/
def memmove_buf (buf : List Nat) (dst src n : Nat) : List Nat :=
  buf.take dst ++ (buf.drop src).take n ++ buf.drop (dst + n)

/-- C `memcpy(&buf[dst], data, n)`. -/
def memcpy_buf (buf : List Nat) (dst : Nat) (data : List Nat) (n : Nat) : List Nat :=
  buf.take dst ++ data.take n ++ buf.drop (dst + n)

/-- Source `maxproui_send_command`, run without an interrupt in between.  The
locals `tpos`, `tmax` are `uint_fast8_t`; after the reset at the top
`tpos ≤ tmax`, so the subtractions are exact.  Returns the new state and the
accesses made to `tft_transmit_buf`. -/
def maxproui_send_command (st : serial_state) (data : List Nat) (data_len : Nat) :
    serial_state × List access :=
  if data_len < 1 then (st, [])
  else
    -- Verify space for message
    let tpos0 := st.tft_transmit_pos
    let tmax0 := st.tft_transmit_max
    let s1 : serial_state × Nat × Nat :=
      if tpos0 ≥ tmax0 then
        ({ st with tft_transmit_max := 0, tft_transmit_pos := 0 }, 0, 0)
      else (st, tpos0, tmax0)
    let st1 := s1.1
    let tpos := s1.2.1
    let tmax := s1.2.2
    let msglen := data_len
    if tmax + msglen > TRANSMIT_BUFF_SIZE then
      if tmax + msglen - tpos > TRANSMIT_BUFF_SIZE then
        -- Not enough space for message
        (st1, [])
      else
        -- Disable TX irq and move buffer
        let st2 := { st1 with tft_transmit_max := 0 }
        let tpos2 := st2.tft_transmit_pos
        let tmax2 := tmax - tpos2
        let st3 := { st2 with
          tft_transmit_buf := memmove_buf st2.tft_transmit_buf 0 tpos2 tmax2,
          tft_transmit_pos := 0,
          tft_transmit_max := tmax2 % 256 }
        -- Generate message, start message transmit
        ({ st3 with
            tft_transmit_buf := memcpy_buf st3.tft_transmit_buf tmax2 data data_len,
            tft_transmit_max := (tmax2 + msglen) % 256 },
         [access.read tpos2 tmax2, access.write 0 tmax2, access.write tmax2 data_len])
    else
      -- Generate message, start message transmit
      ({ st1 with
          tft_transmit_buf := memcpy_buf st1.tft_transmit_buf tmax data data_len,
          tft_transmit_max := (tmax + msglen) % 256 },
       [access.write tmax data_len])

/-- Source `command_maxproui_write`; `completed`, `data_len` and `data` are
the values of its locals of these names. -/
def command_maxproui_write (st : serial_state) (completed data_len : Nat)
    (data : List Nat) : serial_state × List access :=
  let r := maxproui_send_command st data data_len
  if completed = 1 then ({ r.1 with tft_receivNewMsg := 1 }, r.2)
  else r

/-- Source `maxproui_rx_byte` (the Rx interrupt).  The characters `'\n'`,
`'\r'`, `':'` are 10, 13, 58.  Returns the new state and the writes made to
`tft_receive_buf`. -/
def maxproui_rx_byte (st : serial_state) (data : Nat) : serial_state × List access :=
  if data = 10 ∨ data = 13 ∨ data = 58 ∨ st.tft_receive_pos > RECEIVE_BUFF_SIZE then
    if st.tft_receive_pos = 0 then (st, [])
    else
      -- Terminate the string
      ({ st with
          tft_receive_buf := st.tft_receive_buf.set st.tft_receive_pos 0,
          tft_dataCount := st.tft_receive_pos,
          tft_receive_pos := 0,
          tft_receivNewMsg := 0 },
       [access.write st.tft_receive_pos 1])
  else
    if st.tft_receivNewMsg ≠ 0 then
      ({ st with
          tft_receive_buf := st.tft_receive_buf.set st.tft_receive_pos (data % 256),
          tft_receive_pos := (st.tft_receive_pos + 1) % 256 },
       [access.write st.tft_receive_pos 1])
    else (st, [])

/-- What `maxproui_get_tx_byte` hands back: the state, the `int` it returns,
the byte stored through `pdata` (none when nothing is stored) and the reads of
`tft_transmit_buf`. -/
structure tx_byte_result where
  state : serial_state
  ret : Int
  pdata : Option Nat
  accesses : List access
deriving DecidableEq, Repr

/-- Source `maxproui_get_tx_byte` (the Tx interrupt). -/
def maxproui_get_tx_byte (st : serial_state) : tx_byte_result :=
  if st.tft_transmit_pos ≥ st.tft_transmit_max then
    { state := st, ret := -1, pdata := none, accesses := [] }
  else
    { state := { st with tft_transmit_pos := (st.tft_transmit_pos + 1) % 256 },
      ret := 0,
      pdata := some (st.tft_transmit_buf.getD st.tft_transmit_pos 0),
      accesses := [access.read st.tft_transmit_pos 1] }

/-- The pending transmit bytes:
`tft_transmit_buf[tft_transmit_pos .. tft_transmit_max)`. -/
def tx_pending (st : serial_state) : List Nat :=
  (st.tft_transmit_buf.drop st.tft_transmit_pos).take
    (st.tft_transmit_max - st.tft_transmit_pos)

/-- The transmit indices are in order and inside the array:
`tft_transmit_pos ≤ tft_transmit_max ≤ TRANSMIT_BUFF_SIZE`. -/
def tx_indices_ok (st : serial_state) : Prop :=
  st.tft_transmit_pos ≤ st.tft_transmit_max ∧ st.tft_transmit_max ≤ TRANSMIT_BUFF_SIZE

/-- One call from outside: a byte arriving at the Rx interrupt, or the host's
`maxproui_write` command. -/
inductive serial_call where
  | rx_byte (data : Nat)
  | maxproui_write (completed data_len : Nat) (data : List Nat)
deriving DecidableEq, Repr

/-- The state after one call. -/
def run_serial_call (st : serial_state) : serial_call → serial_state
  | .rx_byte data => (maxproui_rx_byte st data).1
  | .maxproui_write completed data_len data =>
    (command_maxproui_write st completed data_len data).1

/-- The state after a sequence of calls, first call first. -/
def run_serial_calls (st : serial_state) : List serial_call → serial_state
  | [] => st
  | c :: cs => run_serial_calls (run_serial_call st c) cs

/-- The call does not re-enable reception: it is not a `maxproui_write` with
`completed = 1`. -/
def call_keeps_rx_off : serial_call → Prop
  | .rx_byte _ => True
  | .maxproui_write completed _ _ => completed ≠ 1

/-- The state after the bytes of `bytes` arrived one by one at the Rx
interrupt. -/
def rx_bytes (st : serial_state) (bytes : List Nat) : serial_state :=
  bytes.foldl (fun s b => (maxproui_rx_byte s b).1) st

end Maxproui

namespace Trapq

variable {K : Type} [LinearOrderedField K]

/-! ## `trapq_append` -/

/-- C1: the moves that one call of `trapq_append` adds are contiguous, also
across omitted phases: the first added move has the request's `print_time`
and `start_pos`, and for every two consecutive added moves `m`, `n`,
`move_get_coord m m.move_t = n.start_pos` and
`m.print_time + m.move_t = n.print_time`. -/
theorem trapq_append_contiguous (tq : trapq K) (print_time accel_t cruise_t decel_t
    start_pos_x start_pos_y start_pos_z axes_r_x axes_r_y axes_r_z
    start_v cruise_v accel : K) :
    (∀ m, (added_moves tq (trapq_append tq print_time accel_t cruise_t decel_t
          start_pos_x start_pos_y start_pos_z axes_r_x axes_r_y axes_r_z
          start_v cruise_v accel)).head? = some m →
        m.print_time = print_time ∧
        m.start_pos = { x := start_pos_x, y := start_pos_y, z := start_pos_z }) ∧
    List.Chain'
      (fun m n => move_get_coord m m.move_t = n.start_pos ∧
        m.print_time + m.move_t = n.print_time)
      (added_moves tq (trapq_append tq print_time accel_t cruise_t decel_t
        start_pos_x start_pos_y start_pos_z axes_r_x axes_r_y axes_r_z
        start_v cruise_v accel)) := by
  unfold trapq_append added_moves
  by_cases h1 : accel_t = 0 <;> by_cases h2 : cruise_t = 0 <;> by_cases h3 : decel_t = 0 <;>
    simp [h1, h2, h3, trapq_add_move, move_alloc]

/-- C2: the queue after `trapq_append` is the queue before it followed by the
new moves: the old moves are unchanged and keep their order, one move is
added per phase whose duration is not zero, in the order acceleration,
cruise, deceleration, so between 0 and 3 moves are added, all at the tail. -/
theorem trapq_append_frame (tq : trapq K) (print_time accel_t cruise_t decel_t
    start_pos_x start_pos_y start_pos_z axes_r_x axes_r_y axes_r_z
    start_v cruise_v accel : K) :
    (trapq_append tq print_time accel_t cruise_t decel_t
        start_pos_x start_pos_y start_pos_z axes_r_x axes_r_y axes_r_z
        start_v cruise_v accel).moves
      = tq.moves ++ added_moves tq (trapq_append tq print_time accel_t cruise_t decel_t
          start_pos_x start_pos_y start_pos_z axes_r_x axes_r_y axes_r_z
          start_v cruise_v accel) ∧
    (added_moves tq (trapq_append tq print_time accel_t cruise_t decel_t
        start_pos_x start_pos_y start_pos_z axes_r_x axes_r_y axes_r_z
        start_v cruise_v accel)).map (fun m => m.move_t)
      = [accel_t, cruise_t, decel_t].filter (fun d => decide (d ≠ 0)) ∧
    (added_moves tq (trapq_append tq print_time accel_t cruise_t decel_t
        start_pos_x start_pos_y start_pos_z axes_r_x axes_r_y axes_r_z
        start_v cruise_v accel)).length
      = (if accel_t ≠ 0 then 1 else 0) + (if cruise_t ≠ 0 then 1 else 0)
        + (if decel_t ≠ 0 then 1 else 0) ∧
    (added_moves tq (trapq_append tq print_time accel_t cruise_t decel_t
        start_pos_x start_pos_y start_pos_z axes_r_x axes_r_y axes_r_z
        start_v cruise_v accel)).length ≤ 3 := by
  unfold trapq_append added_moves
  by_cases h1 : accel_t = 0 <;> by_cases h2 : cruise_t = 0 <;> by_cases h3 : decel_t = 0 <;>
    simp [h1, h2, h3, trapq_add_move, move_alloc]

/-- C3: each move that `trapq_append` adds carries the kinematic parameters of
its phase and the request's `axes_r`: the acceleration move has
`start_v = start_v`, `half_accel = 0.5 * accel`, `move_t = accel_t`; the
cruise move has `start_v = cruise_v`, `half_accel = 0`, `move_t = cruise_t`;
the deceleration move has `start_v = cruise_v`, `half_accel = -0.5 * accel`,
`move_t = decel_t`.  The added moves, read as tuples
(move_t, start_v, half_accel, axes_r), are the three phases' tuples in order,
without the phases whose duration is zero. -/
theorem trapq_append_phase_params (tq : trapq K) (print_time accel_t cruise_t decel_t
    start_pos_x start_pos_y start_pos_z axes_r_x axes_r_y axes_r_z
    start_v cruise_v accel : K) :
    (added_moves tq (trapq_append tq print_time accel_t cruise_t decel_t
        start_pos_x start_pos_y start_pos_z axes_r_x axes_r_y axes_r_z
        start_v cruise_v accel)).map
        (fun m => (m.move_t, m.start_v, m.half_accel, m.axes_r))
      = [ (accel_t, start_v, 0.5 * accel,
            ({ x := axes_r_x, y := axes_r_y, z := axes_r_z } : coord K)),
          (cruise_t, cruise_v, 0,
            ({ x := axes_r_x, y := axes_r_y, z := axes_r_z } : coord K)),
          (decel_t, cruise_v, -0.5 * accel,
            ({ x := axes_r_x, y := axes_r_y, z := axes_r_z } : coord K)) ].filter
          (fun p => decide (p.1 ≠ 0)) := by
  unfold trapq_append added_moves
  by_cases h1 : accel_t = 0 <;> by_cases h2 : cruise_t = 0 <;> by_cases h3 : decel_t = 0 <;>
    simp [h1, h2, h3, trapq_add_move, move_alloc]

/-! ## `move_get_distance`, `move_get_coord` -/

/-- C7: `move_get_distance m t`, computed as `(start_v + half_accel * t) * t`,
equals `start_v * t + half_accel * t^2`; in particular
`move_get_distance m 0 = 0` for every move. -/
theorem move_get_distance_quadratic (m : move K) (t : K) :
    move_get_distance m t = m.start_v * t + m.half_accel * t ^ 2 ∧
    move_get_distance m 0 = 0 := by
  constructor
  · unfold move_get_distance; ring
  · unfold move_get_distance; ring

/-- C8: `move_get_coord m t` is, on each of the axes x, y, z,
`m.start_pos + m.axes_r * move_get_distance m t`; in particular
`move_get_coord m 0 = m.start_pos`. -/
theorem move_get_coord_per_axis (m : move K) (t : K) :
    (move_get_coord m t).x = m.start_pos.x + m.axes_r.x * move_get_distance m t ∧
    (move_get_coord m t).y = m.start_pos.y + m.axes_r.y * move_get_distance m t ∧
    (move_get_coord m t).z = m.start_pos.z + m.axes_r.z * move_get_distance m t ∧
    move_get_coord m 0 = m.start_pos := by
  refine ⟨rfl, rfl, rfl, ?_⟩
  simp [move_get_coord, move_get_distance]

/-- C6: appending to an empty queue the request print_time = 0, accel_t = 2,
cruise_t = 3, decel_t = 1, start_pos = (0,0,0), axes_r = (1,0,0), start_v = 0,
cruise_v = 10, accel = 5 yields exactly 3 moves, whose positions at their own
`move_t` are (10,0,0), (40,0,0) and (47.5,0,0). -/
theorem trapq_append_scenario :
    (trapq_append (trapq_alloc : trapq K) 0 2 3 1 0 0 0 1 0 0 0 10 5).moves.length = 3 ∧
    (trapq_append (trapq_alloc : trapq K) 0 2 3 1 0 0 0 1 0 0 0 10 5).moves.map
        (fun m => move_get_coord m m.move_t)
      = [ { x := 10, y := 0, z := 0 }, { x := 40, y := 0, z := 0 },
          { x := 47.5, y := 0, z := 0 } ] := by
  simp [trapq_append, trapq_alloc, trapq_add_move, move_alloc, move_get_coord,
    move_get_distance]
  norm_num

/-! ## `trapq_free_moves` -/

/-- What the loop leaves is a suffix of the list it started from. -/
theorem free_moves_loop_suffix (l : List (move K)) (cutoff : K) :
    free_moves_loop l cutoff <:+ l := by
  induction l with
  | nil => simp [free_moves_loop]
  | cons m rest ih =>
    unfold free_moves_loop
    split
    · exact List.suffix_refl _
    · exact ih.trans (List.suffix_cons m rest)

/-- The loop is `List.dropWhile` on "end time at most the cutoff". -/
theorem free_moves_loop_eq_dropWhile (l : List (move K)) (cutoff : K) :
    free_moves_loop l cutoff
      = l.dropWhile (fun m => decide (m.print_time + m.move_t ≤ cutoff)) := by
  induction l with
  | nil => simp [free_moves_loop]
  | cons m rest ih =>
    unfold free_moves_loop
    by_cases h : m.print_time + m.move_t > cutoff
    · have h' : ¬ (m.print_time + m.move_t ≤ cutoff) := not_le.mpr h
      simp [h, h', List.dropWhile_cons]
    · have h' : m.print_time + m.move_t ≤ cutoff := not_lt.mp h
      simp [h, h', List.dropWhile_cons, ih]

/-- In a queue with non-negative durations where each move starts at or after
the end of the move before it, every move behind `m` starts at or after the end
of `m`. -/
theorem end_le_of_chain (rest : List (move K)) :
    ∀ m : move K, (∀ n ∈ rest, 0 ≤ n.move_t) →
      List.Chain (fun a b => a.print_time + a.move_t ≤ b.print_time) m rest →
      ∀ n ∈ rest, m.print_time + m.move_t ≤ n.print_time := by
  induction rest with
  | nil => intro m _ _ n hn; simp at hn
  | cons a l ih =>
    intro m hdur hch n hn
    rw [List.chain_cons] at hch
    rcases List.mem_cons.mp hn with rfl | hn'
    · exact hch.1
    · have h1 := ih a (fun x hx => hdur x (List.mem_cons_of_mem _ hx)) hch.2 n hn'
      have h2 := hdur a (List.mem_cons_self _ _)
      linarith [hch.1]

/-- C4: `trapq_free_moves tq cutoff` is `tq` without its longest prefix of
moves whose `print_time + move_t ≤ cutoff`: the removed moves are a prefix of
the queue, each of them ends at or before the cutoff, the first move left (if
any) ends after the cutoff, and that move and every move behind it are
unchanged and in order. -/
theorem trapq_free_moves_head_scan (tq : trapq K) (cutoff : K) :
    (trapq_free_moves tq cutoff).moves
      = tq.moves.dropWhile (fun m => decide (m.print_time + m.move_t ≤ cutoff)) ∧
    (∃ removed : List (move K),
      tq.moves = removed ++ (trapq_free_moves tq cutoff).moves ∧
      ∀ m ∈ removed, m.print_time + m.move_t ≤ cutoff) ∧
    (∀ m, (trapq_free_moves tq cutoff).moves.head? = some m →
      cutoff < m.print_time + m.move_t) := by
  have hd := free_moves_loop_eq_dropWhile tq.moves cutoff
  refine ⟨hd, ⟨tq.moves.takeWhile (fun m => decide (m.print_time + m.move_t ≤ cutoff)),
    ?_, ?_⟩, ?_⟩
  · simp only [trapq_free_moves, hd, List.takeWhile_append_dropWhile]
  · intro m hm
    simpa using List.mem_takeWhile_imp hm
  · intro m hm
    simp only [trapq_free_moves, hd] at hm
    have := List.head?_dropWhile_not
      (fun m : move K => decide (m.print_time + m.move_t ≤ cutoff)) tq.moves
    rw [hm] at this
    simpa using this

/-- On a queue with non-negative durations where each move starts at or after
the end of the move before it, the loop keeps exactly the moves that end after
the cutoff. -/
theorem free_moves_loop_eq_filter (l : List (move K)) (cutoff : K)
    (hdur : ∀ m ∈ l, 0 ≤ m.move_t)
    (hord : List.Chain' (fun a b => a.print_time + a.move_t ≤ b.print_time) l) :
    free_moves_loop l cutoff
      = l.filter (fun m => decide (cutoff < m.print_time + m.move_t)) ∧
    l = l.filter (fun m => decide (m.print_time + m.move_t ≤ cutoff))
          ++ free_moves_loop l cutoff := by
  induction l with
  | nil => simp [free_moves_loop]
  | cons m rest ih =>
    have hdur' : ∀ n ∈ rest, 0 ≤ n.move_t := fun n hn => hdur n (List.mem_cons_of_mem _ hn)
    have ih' := ih hdur' hord.tail
    unfold free_moves_loop
    by_cases h : m.print_time + m.move_t > cutoff
    · have hlater : ∀ n ∈ rest, cutoff < n.print_time + n.move_t := by
        intro n hn
        have h1 := end_le_of_chain rest m hdur' hord n hn
        have h2 := hdur' n hn
        linarith
      have hkeep : rest.filter (fun m => decide (cutoff < m.print_time + m.move_t)) = rest := by
        rw [List.filter_eq_self]
        intro n hn
        simpa using hlater n hn
      have hnone : rest.filter (fun m => decide (m.print_time + m.move_t ≤ cutoff)) = [] := by
        rw [List.filter_eq_nil_iff]
        intro n hn
        simpa using hlater n hn
      have h' : ¬ (m.print_time + m.move_t ≤ cutoff) := not_le.mpr h
      have hlt : cutoff < m.print_time + m.move_t := h
      simp [h', hlt, List.filter_cons, hkeep, hnone]
    · have h' : m.print_time + m.move_t ≤ cutoff := not_lt.mp h
      have hlt : ¬ (cutoff < m.print_time + m.move_t) := h
      simp only [h, if_false]
      constructor
      · simp [List.filter_cons, hlt, ih'.1]
      · simp only [List.filter_cons, h', decide_True, if_true, List.cons_append]
        rw [← ih'.2]

/-- C5: on a queue in which durations are non-negative and each move starts at
or after the end time of the move before it, `trapq_free_moves` removes exactly
the moves whose end time `print_time + move_t` is `≤ cutoff` and retains
exactly the moves whose end time is `> cutoff`: the head-only scan equals
filtering the whole queue by end time `> cutoff`. -/
theorem trapq_free_moves_eq_filter (tq : trapq K) (cutoff : K)
    (hdur : ∀ m ∈ tq.moves, 0 ≤ m.move_t)
    (hord : List.Chain' (fun a b => a.print_time + a.move_t ≤ b.print_time) tq.moves) :
    (trapq_free_moves tq cutoff).moves
      = tq.moves.filter (fun m => decide (cutoff < m.print_time + m.move_t)) ∧
    tq.moves = tq.moves.filter (fun m => decide (m.print_time + m.move_t ≤ cutoff))
          ++ (trapq_free_moves tq cutoff).moves ∧
    (∀ m ∈ tq.moves,
      (m ∈ (trapq_free_moves tq cutoff).moves ↔ cutoff < m.print_time + m.move_t)) := by
  have h := free_moves_loop_eq_filter tq.moves cutoff hdur hord
  refine ⟨h.1, h.2, ?_⟩
  intro m hm
  simp only [trapq_free_moves, h.1, List.mem_filter, hm, true_and, decide_eq_true_eq]

/-- The queue of the three moves over `[0,2]`, `[2,5]`, `[5,6]` trimmed at
cutoff 5 meets the hypotheses of C5, and what is left is the queue filtered by
end time `> 5`: the move that ends exactly at the cutoff goes too. -/
theorem trapq_free_moves_eq_filter_witness :
    (∀ m ∈ (trapq_append (trapq_alloc : trapq ℚ) 0 2 3 1 0 0 0 1 0 0 0 10 5).moves,
      0 ≤ m.move_t) ∧
    List.Chain' (fun a b : move ℚ => a.print_time + a.move_t ≤ b.print_time)
      (trapq_append (trapq_alloc : trapq ℚ) 0 2 3 1 0 0 0 1 0 0 0 10 5).moves ∧
    (trapq_free_moves
        (trapq_append (trapq_alloc : trapq ℚ) 0 2 3 1 0 0 0 1 0 0 0 10 5) 5).moves
      = (trapq_append (trapq_alloc : trapq ℚ) 0 2 3 1 0 0 0 1 0 0 0 10 5).moves.filter
          (fun m => decide ((5 : ℚ) < m.print_time + m.move_t)) :=
  ⟨by simp [trapq_append, trapq_alloc, trapq_add_move, move_alloc],
   by simp [trapq_append, trapq_alloc, trapq_add_move, move_alloc],
   (trapq_free_moves_eq_filter
      (trapq_append (trapq_alloc : trapq ℚ) 0 2 3 1 0 0 0 1 0 0 0 10 5) 5
      (by simp [trapq_append, trapq_alloc, trapq_add_move, move_alloc])
      (by simp [trapq_append, trapq_alloc, trapq_add_move, move_alloc])).1⟩

/-! ## Ordering of the queue -/

/-- One `trapq_append` whose durations are non-negative and whose `print_time`
is at or after the end of the last move keeps the queue in order: durations
non-negative, each move starting at or after the end of the move before it. -/
theorem trapq_append_keeps_order (tq : trapq K) (print_time accel_t cruise_t decel_t
    start_pos_x start_pos_y start_pos_z axes_r_x axes_r_y axes_r_z
    start_v cruise_v accel : K)
    (hdur : ∀ m ∈ tq.moves, 0 ≤ m.move_t)
    (hord : List.Chain' (fun a b => a.print_time + a.move_t ≤ b.print_time) tq.moves)
    (ha : 0 ≤ accel_t) (hc : 0 ≤ cruise_t) (hd : 0 ≤ decel_t)
    (hlast : ∀ l ∈ tq.moves.getLast?, l.print_time + l.move_t ≤ print_time) :
    (∀ m ∈ (trapq_append tq print_time accel_t cruise_t decel_t
        start_pos_x start_pos_y start_pos_z axes_r_x axes_r_y axes_r_z
        start_v cruise_v accel).moves, 0 ≤ m.move_t) ∧
    List.Chain' (fun a b => a.print_time + a.move_t ≤ b.print_time)
      (trapq_append tq print_time accel_t cruise_t decel_t
        start_pos_x start_pos_y start_pos_z axes_r_x axes_r_y axes_r_z
        start_v cruise_v accel).moves := by
  unfold trapq_append
  by_cases h1 : accel_t = 0 <;> by_cases h2 : cruise_t = 0 <;> by_cases h3 : decel_t = 0 <;>
    simp [h1, h2, h3, trapq_add_move, move_alloc, List.chain'_append, hord, or_imp,
      forall_and, ha, hc, hd] <;>
    first
      | exact hdur
      | exact ⟨hdur, fun x hx => hlast x hx⟩

/-- In a queue with non-negative durations where each move starts at or after
the end of the move before it, the moves stand in non-decreasing `print_time`
order. -/
theorem print_time_pairwise (l : List (move K)) :
    (∀ m ∈ l, 0 ≤ m.move_t) →
    List.Chain' (fun a b => a.print_time + a.move_t ≤ b.print_time) l →
    List.Pairwise (fun a b => a.print_time ≤ b.print_time) l := by
  induction l with
  | nil => intro _ _; exact List.Pairwise.nil
  | cons m rest ih =>
    intro hdur hord
    have hdur' : ∀ n ∈ rest, 0 ≤ n.move_t := fun n hn => hdur n (List.mem_cons_of_mem _ hn)
    rw [List.pairwise_cons]
    refine ⟨?_, ih hdur' hord.tail⟩
    intro n hn
    have h1 := end_le_of_chain rest m hdur' hord n hn
    have h2 := hdur m (List.mem_cons_self _ _)
    linarith

/-- Calls that keep the planner's side of the contract keep the queue in
order: durations non-negative, each move starting at or after the end of the
move before it. -/
theorem run_calls_keeps_order (calls : List (call K)) :
    ∀ tq : trapq K, (∀ m ∈ tq.moves, 0 ≤ m.move_t) →
      List.Chain' (fun a b => a.print_time + a.move_t ≤ b.print_time) tq.moves →
      calls_in_order tq calls →
      (∀ m ∈ (run_calls tq calls).moves, 0 ≤ m.move_t) ∧
      List.Chain' (fun a b => a.print_time + a.move_t ≤ b.print_time)
        (run_calls tq calls).moves := by
  induction calls with
  | nil => intro tq hdur hord _; exact ⟨hdur, hord⟩
  | cons c cs ih =>
    intro tq hdur hord hok
    obtain ⟨hc, hcs⟩ := hok
    cases c with
    | append print_time accel_t cruise_t decel_t start_pos_x start_pos_y start_pos_z
        axes_r_x axes_r_y axes_r_z start_v cruise_v accel =>
      obtain ⟨ha, hcr, hd, hlast⟩ := hc
      have hstep := trapq_append_keeps_order tq print_time accel_t cruise_t decel_t
        start_pos_x start_pos_y start_pos_z axes_r_x axes_r_y axes_r_z start_v cruise_v accel
        hdur hord ha hcr hd hlast
      exact ih _ hstep.1 hstep.2 hcs
    | free_moves cutoff =>
      have hsuf := free_moves_loop_suffix tq.moves cutoff
      exact ih (trapq_free_moves tq cutoff) (fun m hm => hdur m (hsuf.subset hm))
        (hord.suffix hsuf) hcs

/-- C9: every queue reachable from `trapq_alloc` by `trapq_append` calls whose
three durations are non-negative and whose `print_time` is at or after the end
time of the current last move, interleaved with `trapq_free_moves` calls with
any cutoffs, lists its moves in non-decreasing `print_time` order. -/
theorem trapq_moves_sorted (calls : List (call K))
    (h : calls_in_order (trapq_alloc : trapq K) calls) :
    List.Pairwise (fun a b => a.print_time ≤ b.print_time)
      (run_calls (trapq_alloc : trapq K) calls).moves := by
  have hinv := run_calls_keeps_order calls (trapq_alloc : trapq K)
    (by simp [trapq_alloc]) (by simp [trapq_alloc]) h
  exact print_time_pairwise _ hinv.1 hinv.2

/-- An append over `[0,6]`, a trim at 2 and an append over `[6,8]` keep the
planner's side of the contract, and the queue they reach is sorted. -/
theorem trapq_moves_sorted_witness :
    calls_in_order (trapq_alloc : trapq ℚ)
      [call.append 0 2 3 1 0 0 0 1 0 0 0 10 5, call.free_moves 2,
       call.append 6 1 0 1 47.5 0 0 1 0 0 0 5 5] ∧
    List.Pairwise (fun a b : move ℚ => a.print_time ≤ b.print_time)
      (run_calls (trapq_alloc : trapq ℚ)
        [call.append 0 2 3 1 0 0 0 1 0 0 0 10 5, call.free_moves 2,
         call.append 6 1 0 1 47.5 0 0 1 0 0 0 5 5]).moves :=
  have hok : calls_in_order (trapq_alloc : trapq ℚ)
      [call.append 0 2 3 1 0 0 0 1 0 0 0 10 5, call.free_moves 2,
       call.append 6 1 0 1 47.5 0 0 1 0 0 0 5 5] := by
    simp [calls_in_order, call_in_order, run_call, trapq_append, trapq_free_moves,
      free_moves_loop, trapq_alloc, trapq_add_move, move_alloc]
    norm_num
  ⟨hok, trapq_moves_sorted _ hok⟩

/-! ## Which phases become moves -/

/-- C10 as stated fails: the request with `accel_t = -1` (not `> 0`) and
cruise and deceleration durations 0 gets an acceleration move, whose `move_t`
is `-1`: a negative-length move enters the queue. -/
theorem trapq_append_negative_duration :
    ¬ ((-1 : ℚ) > 0) ∧
    (added_moves (trapq_alloc : trapq ℚ)
        (trapq_append (trapq_alloc : trapq ℚ) 0 (-1) 0 0 0 0 0 1 0 0 1 1 1)).map
        (fun m => m.move_t) = [-1] ∧
    ¬ (∀ m ∈ added_moves (trapq_alloc : trapq ℚ)
          (trapq_append (trapq_alloc : trapq ℚ) 0 (-1) 0 0 0 0 0 1 0 0 1 1 1),
        0 < m.move_t) := by
  simp [added_moves, trapq_append, trapq_alloc, trapq_add_move, move_alloc]

/-- C10, amended: `trapq_append` creates the move of a phase exactly when that
phase's duration is not zero (the C test `if (accel_t)`), so every move it
inserts has a non-zero `move_t`; when the three durations are non-negative,
every move it inserts has a strictly positive `move_t`. -/
theorem trapq_append_nonzero_durations (tq : trapq K) (print_time accel_t cruise_t decel_t
    start_pos_x start_pos_y start_pos_z axes_r_x axes_r_y axes_r_z
    start_v cruise_v accel : K) :
    (added_moves tq (trapq_append tq print_time accel_t cruise_t decel_t
        start_pos_x start_pos_y start_pos_z axes_r_x axes_r_y axes_r_z
        start_v cruise_v accel)).map (fun m => m.move_t)
      = [accel_t, cruise_t, decel_t].filter (fun d => decide (d ≠ 0)) ∧
    (∀ m ∈ added_moves tq (trapq_append tq print_time accel_t cruise_t decel_t
        start_pos_x start_pos_y start_pos_z axes_r_x axes_r_y axes_r_z
        start_v cruise_v accel), m.move_t ≠ 0) ∧
    (0 ≤ accel_t → 0 ≤ cruise_t → 0 ≤ decel_t →
      ∀ m ∈ added_moves tq (trapq_append tq print_time accel_t cruise_t decel_t
        start_pos_x start_pos_y start_pos_z axes_r_x axes_r_y axes_r_z
        start_v cruise_v accel), 0 < m.move_t) := by
  refine ⟨?_, ?_, ?_⟩
  · unfold trapq_append added_moves
    by_cases h1 : accel_t = 0 <;> by_cases h2 : cruise_t = 0 <;> by_cases h3 : decel_t = 0 <;>
      simp [h1, h2, h3, trapq_add_move, move_alloc]
  · unfold trapq_append added_moves
    by_cases h1 : accel_t = 0 <;> by_cases h2 : cruise_t = 0 <;> by_cases h3 : decel_t = 0 <;>
      simp [h1, h2, h3, trapq_add_move, move_alloc]
  · intro ha hc hd
    have ha' : accel_t ≠ 0 → 0 < accel_t := fun h => lt_of_le_of_ne ha (Ne.symm h)
    have hc' : cruise_t ≠ 0 → 0 < cruise_t := fun h => lt_of_le_of_ne hc (Ne.symm h)
    have hd' : decel_t ≠ 0 → 0 < decel_t := fun h => lt_of_le_of_ne hd (Ne.symm h)
    unfold trapq_append added_moves
    by_cases h1 : accel_t = 0 <;> by_cases h2 : cruise_t = 0 <;> by_cases h3 : decel_t = 0 <;>
      simp [h1, h2, h3, trapq_add_move, move_alloc] <;>
      first
        | exact ha' h1
        | exact hc' h2
        | exact hd' h3
        | exact ⟨ha' h1, hc' h2⟩
        | exact ⟨ha' h1, hd' h3⟩
        | exact ⟨hc' h2, hd' h3⟩
        | exact ⟨ha' h1, hc' h2, hd' h3⟩

/-- The request of the concrete scenario without its cruise phase (durations
2, 0, 1, all non-negative): the two moves it adds have durations 2 and 1, both
strictly positive. -/
theorem trapq_append_nonzero_durations_witness :
    (0 : ℚ) ≤ 2 ∧ (0 : ℚ) ≤ 0 ∧ (0 : ℚ) ≤ 1 ∧
    (∀ m ∈ added_moves (trapq_alloc : trapq ℚ)
        (trapq_append (trapq_alloc : trapq ℚ) 0 2 0 1 0 0 0 1 0 0 0 10 5), 0 < m.move_t) :=
  ⟨by norm_num, le_refl 0, by norm_num,
   (trapq_append_nonzero_durations (trapq_alloc : trapq ℚ) 0 2 0 1 0 0 0 1 0 0 0 10 5).2.2
     (by norm_num) (le_refl 0) (by norm_num)⟩

/-! ## No-op calls, trimming twice, net motion -/

/-- C11: `trapq_append` with `accel_t = cruise_t = decel_t = 0` inserts no
move and leaves the queue exactly as it was, whatever the other arguments. -/
theorem trapq_append_zero_durations (tq : trapq K) (print_time
    start_pos_x start_pos_y start_pos_z axes_r_x axes_r_y axes_r_z
    start_v cruise_v accel : K) :
    trapq_append tq print_time 0 0 0 start_pos_x start_pos_y start_pos_z
      axes_r_x axes_r_y axes_r_z start_v cruise_v accel = tq ∧
    added_moves tq (trapq_append tq print_time 0 0 0 start_pos_x start_pos_y start_pos_z
      axes_r_x axes_r_y axes_r_z start_v cruise_v accel) = [] := by
  simp [trapq_append, added_moves]

/-- C12: on a non-empty queue, a cutoff strictly below the head move's end
time `print_time + move_t` leaves the queue unchanged, whatever the end times
of the moves behind the head are. -/
theorem trapq_free_moves_below_head (tq : trapq K) (cutoff : K) (m : move K)
    (rest : List (move K)) (hq : tq.moves = m :: rest)
    (hc : cutoff < m.print_time + m.move_t) :
    trapq_free_moves tq cutoff = tq := by
  cases tq with
  | mk moves =>
    simp only at hq
    subst hq
    simp [trapq_free_moves, free_moves_loop, hc]

/-- The head of this queue ends at 2 and the move behind it ends at 1 (a
queue that is not in order); the cutoff 1.5 is below the head's end time and
the queue stays as it is. -/
theorem trapq_free_moves_below_head_witness :
    ((1.5 : ℚ) < 0 + 2) ∧
    trapq_free_moves
      ({ moves := [ { print_time := 0, move_t := 2, start_v := 0, half_accel := 0,
                      start_pos := { x := 0, y := 0, z := 0 },
                      axes_r := { x := 1, y := 0, z := 0 } },
                    { print_time := 0, move_t := 1, start_v := 0, half_accel := 0,
                      start_pos := { x := 0, y := 0, z := 0 },
                      axes_r := { x := 1, y := 0, z := 0 } } ] } : trapq ℚ) 1.5
      = { moves := [ { print_time := 0, move_t := 2, start_v := 0, half_accel := 0,
                       start_pos := { x := 0, y := 0, z := 0 },
                       axes_r := { x := 1, y := 0, z := 0 } },
                     { print_time := 0, move_t := 1, start_v := 0, half_accel := 0,
                       start_pos := { x := 0, y := 0, z := 0 },
                       axes_r := { x := 1, y := 0, z := 0 } } ] } :=
  ⟨by norm_num, trapq_free_moves_below_head _ 1.5 _ _ rfl (by norm_num)⟩

/-- C13: `trapq_alloc` returns a queue with no moves, and applying
`trapq_free_moves` with any finite sequence of cutoffs to an empty queue (a
new one, or one already drained) gives the empty queue each time; the function
is total, so every call returns. -/
theorem trapq_free_moves_empty :
    (trapq_alloc : trapq K).moves = [] ∧
    (∀ cutoffs : List K,
      cutoffs.foldl trapq_free_moves (trapq_alloc : trapq K) = trapq_alloc) ∧
    (∀ (tq : trapq K) (cutoffs : List K), tq.moves = [] →
      (cutoffs.foldl trapq_free_moves tq).moves = []) := by
  have key : ∀ (cutoffs : List K) (tq : trapq K), tq.moves = [] →
      cutoffs.foldl trapq_free_moves tq = tq := by
    intro cutoffs
    induction cutoffs with
    | nil => intro tq _; rfl
    | cons c cs ih =>
      intro tq h
      have hstep : trapq_free_moves tq c = tq := by
        cases tq with
        | mk moves =>
          simp only at h
          subst h
          simp [trapq_free_moves, free_moves_loop]
      simp only [List.foldl_cons, hstep]
      exact ih tq h
  refine ⟨rfl, fun cutoffs => key cutoffs _ rfl, ?_⟩
  intro tq cutoffs h
  rw [key cutoffs tq h]
  exact h

/-- The new queue is empty, and trimming it at 1 and then at 2 leaves it
empty. -/
theorem trapq_free_moves_empty_witness :
    (trapq_alloc : trapq ℚ).moves = [] ∧
    ([1, 2].foldl trapq_free_moves (trapq_alloc : trapq ℚ)).moves = [] :=
  ⟨rfl, (@trapq_free_moves_empty ℚ _).2.2 trapq_alloc [1, 2] rfl⟩

/-- The loop run with a cutoff and then with a cutoff at or after it leaves
what the loop run once with the later cutoff leaves. -/
theorem free_moves_loop_twice (l : List (move K)) (c1 c2 : K) (h : c1 ≤ c2) :
    free_moves_loop (free_moves_loop l c1) c2 = free_moves_loop l c2 := by
  induction l with
  | nil => simp [free_moves_loop]
  | cons m rest ih =>
    by_cases h1 : m.print_time + m.move_t > c1
    · simp [free_moves_loop, h1]
    · have h2 : ¬ (m.print_time + m.move_t > c2) := by
        intro hgt
        exact h1 (lt_of_le_of_lt h hgt)
      have e1 : free_moves_loop (m :: rest) c1 = free_moves_loop rest c1 := by
        simp [free_moves_loop, h1]
      have e2 : free_moves_loop (m :: rest) c2 = free_moves_loop rest c2 := by
        simp [free_moves_loop, h2]
      rw [e1, e2, ih]

/-- C15: for every queue (no ordering assumed) and cutoffs `c1 ≤ c2`, trimming
at `c1` and then at `c2` is trimming at `c2`; trimming is idempotent for a fixed
cutoff; and trimming in several steps with cutoffs none of which is beyond the
last one is trimming once with the last cutoff. -/
theorem trapq_free_moves_twice (tq : trapq K) (c1 c2 : K) (h : c1 ≤ c2) :
    trapq_free_moves (trapq_free_moves tq c1) c2 = trapq_free_moves tq c2 ∧
    trapq_free_moves (trapq_free_moves tq c2) c2 = trapq_free_moves tq c2 ∧
    (∀ cs : List K, (∀ c ∈ cs, c ≤ c2) →
      (cs ++ [c2]).foldl trapq_free_moves tq = trapq_free_moves tq c2) := by
  have two : ∀ (q : trapq K) (a b : K), a ≤ b →
      trapq_free_moves (trapq_free_moves q a) b = trapq_free_moves q b := by
    intro q a b hab
    simp [trapq_free_moves, free_moves_loop_twice q.moves a b hab]
  refine ⟨two tq c1 c2 h, two tq c2 c2 (le_refl _), ?_⟩
  intro cs
  induction cs generalizing tq with
  | nil => intro _; rfl
  | cons c cs ih =>
    intro hcs
    have hc : c ≤ c2 := hcs c (List.mem_cons_self _ _)
    simp only [List.cons_append, List.foldl_cons]
    rw [ih (trapq_free_moves tq c) (fun x hx => hcs x (List.mem_cons_of_mem _ hx))]
    exact two tq c c2 hc

/-- The scenario's three moves end at 2, 5 and 6: trimming at 2 and then at 5
leaves what trimming at 5 leaves. -/
theorem trapq_free_moves_twice_witness :
    ((2 : ℚ) ≤ 5) ∧
    trapq_free_moves (trapq_free_moves
        (trapq_append (trapq_alloc : trapq ℚ) 0 2 3 1 0 0 0 1 0 0 0 10 5) 2) 5
      = trapq_free_moves
        (trapq_append (trapq_alloc : trapq ℚ) 0 2 3 1 0 0 0 1 0 0 0 10 5) 5 :=
  ⟨by norm_num,
   (trapq_free_moves_twice
      (trapq_append (trapq_alloc : trapq ℚ) 0 2 3 1 0 0 0 1 0 0 0 10 5) 2 5
      (by norm_num)).1⟩

/-- C14: whole-queue contiguity (for every two consecutive moves `m`, `n`,
`m.print_time + m.move_t = n.print_time` and
`move_get_coord m m.move_t = n.start_pos`) is preserved by `trapq_free_moves`
for every cutoff, and by `trapq_append` whenever the queue is empty or the
request's `print_time` and `start_pos` are the end time and end position of
the queue's last move. -/
theorem trapq_contiguity_preserved (tq : trapq K)
    (hq : List.Chain' (fun m n => m.print_time + m.move_t = n.print_time ∧
      move_get_coord m m.move_t = n.start_pos) tq.moves) :
    (∀ cutoff : K,
      List.Chain' (fun m n => m.print_time + m.move_t = n.print_time ∧
        move_get_coord m m.move_t = n.start_pos) (trapq_free_moves tq cutoff).moves) ∧
    (∀ print_time accel_t cruise_t decel_t start_pos_x start_pos_y start_pos_z
        axes_r_x axes_r_y axes_r_z start_v cruise_v accel : K,
      (∀ l ∈ tq.moves.getLast?, l.print_time + l.move_t = print_time ∧
        move_get_coord l l.move_t
          = { x := start_pos_x, y := start_pos_y, z := start_pos_z }) →
      List.Chain' (fun m n => m.print_time + m.move_t = n.print_time ∧
        move_get_coord m m.move_t = n.start_pos)
        (trapq_append tq print_time accel_t cruise_t decel_t
          start_pos_x start_pos_y start_pos_z axes_r_x axes_r_y axes_r_z
          start_v cruise_v accel).moves) := by
  constructor
  · intro cutoff
    exact hq.suffix (free_moves_loop_suffix tq.moves cutoff)
  · intro print_time accel_t cruise_t decel_t start_pos_x start_pos_y start_pos_z
      axes_r_x axes_r_y axes_r_z start_v cruise_v accel hlast
    unfold trapq_append
    by_cases h1 : accel_t = 0 <;> by_cases h2 : cruise_t = 0 <;>
      by_cases h3 : decel_t = 0 <;>
      simp [h1, h2, h3, trapq_add_move, move_alloc, List.chain'_append, hq] <;>
      first
        | exact hq
        | exact fun x hx => hlast x hx

/-- The scenario's queue (moves over `[0,2]`, `[2,5]`, `[5,6]`, ending at
x = 47.5) is contiguous; trimmed at 2 it is contiguous, and so it is after an
append that starts at time 6 and position (47.5, 0, 0). -/
theorem trapq_contiguity_preserved_witness :
    List.Chain' (fun m n : move ℚ => m.print_time + m.move_t = n.print_time ∧
        move_get_coord m m.move_t = n.start_pos)
      (trapq_append (trapq_alloc : trapq ℚ) 0 2 3 1 0 0 0 1 0 0 0 10 5).moves ∧
    List.Chain' (fun m n : move ℚ => m.print_time + m.move_t = n.print_time ∧
        move_get_coord m m.move_t = n.start_pos)
      (trapq_free_moves
        (trapq_append (trapq_alloc : trapq ℚ) 0 2 3 1 0 0 0 1 0 0 0 10 5) 2).moves ∧
    List.Chain' (fun m n : move ℚ => m.print_time + m.move_t = n.print_time ∧
        move_get_coord m m.move_t = n.start_pos)
      (trapq_append
        (trapq_append (trapq_alloc : trapq ℚ) 0 2 3 1 0 0 0 1 0 0 0 10 5)
        6 1 0 1 47.5 0 0 1 0 0 0 5 5).moves :=
  have hq : List.Chain' (fun m n : move ℚ => m.print_time + m.move_t = n.print_time ∧
        move_get_coord m m.move_t = n.start_pos)
      (trapq_append (trapq_alloc : trapq ℚ) 0 2 3 1 0 0 0 1 0 0 0 10 5).moves :=
    by
      simp [trapq_append, trapq_alloc, trapq_add_move, move_alloc, move_get_coord,
        move_get_distance]
  ⟨hq, (trapq_contiguity_preserved _ hq).1 2,
   (trapq_contiguity_preserved _ hq).2 6 1 0 1 47.5 0 0 1 0 0 0 5 5
     (by
        simp [trapq_append, trapq_alloc, trapq_add_move, move_alloc, move_get_coord,
          move_get_distance]
        norm_num)⟩

/-- C16: for a request with at least one non-zero duration, appended to any
queue, the end position of the last added move is `start_pos + axes_r * D` on
every axis, with `D = start_v*accel_t + 0.5*accel*accel_t^2 + cruise_v*cruise_t
+ cruise_v*decel_t - 0.5*accel*decel_t^2`, and its end time is
`print_time + accel_t + cruise_t + decel_t`. -/
theorem trapq_append_net_motion (tq : trapq K) (print_time accel_t cruise_t decel_t
    start_pos_x start_pos_y start_pos_z axes_r_x axes_r_y axes_r_z
    start_v cruise_v accel : K)
    (h : accel_t ≠ 0 ∨ cruise_t ≠ 0 ∨ decel_t ≠ 0) :
    ∃ last : move K,
      (added_moves tq (trapq_append tq print_time accel_t cruise_t decel_t
        start_pos_x start_pos_y start_pos_z axes_r_x axes_r_y axes_r_z
        start_v cruise_v accel)).getLast? = some last ∧
      move_get_coord last last.move_t
        = { x := start_pos_x + axes_r_x *
              (start_v * accel_t + 0.5 * accel * accel_t ^ 2 + cruise_v * cruise_t
                + cruise_v * decel_t - 0.5 * accel * decel_t ^ 2),
            y := start_pos_y + axes_r_y *
              (start_v * accel_t + 0.5 * accel * accel_t ^ 2 + cruise_v * cruise_t
                + cruise_v * decel_t - 0.5 * accel * decel_t ^ 2),
            z := start_pos_z + axes_r_z *
              (start_v * accel_t + 0.5 * accel * accel_t ^ 2 + cruise_v * cruise_t
                + cruise_v * decel_t - 0.5 * accel * decel_t ^ 2) } ∧
      last.print_time + last.move_t = print_time + accel_t + cruise_t + decel_t := by
  unfold trapq_append added_moves
  by_cases h1 : accel_t = 0 <;> by_cases h2 : cruise_t = 0 <;>
    by_cases h3 : decel_t = 0 <;>
    simp [h1, h2, h3, trapq_add_move, move_alloc, move_get_coord, move_get_distance] at h ⊢ <;>
    (refine ⟨?_, ?_, ?_⟩ <;> first | (left; ring1) | ring1)

/-- The scenario's request (durations 2, 3, 1, all non-zero) appended to the
empty queue: the last added move ends at x = 47.5 and at time 6. -/
theorem trapq_append_net_motion_witness :
    ((2 : ℚ) ≠ 0 ∨ (3 : ℚ) ≠ 0 ∨ (1 : ℚ) ≠ 0) ∧
    ∃ last : move ℚ,
      (added_moves (trapq_alloc : trapq ℚ)
        (trapq_append (trapq_alloc : trapq ℚ) 0 2 3 1 0 0 0 1 0 0 0 10 5)).getLast?
          = some last ∧
      move_get_coord last last.move_t
        = { x := 0 + 1 * (0 * 2 + 0.5 * 5 * 2 ^ 2 + 10 * 3 + 10 * 1 - 0.5 * 5 * 1 ^ 2),
            y := 0 + 0 * (0 * 2 + 0.5 * 5 * 2 ^ 2 + 10 * 3 + 10 * 1 - 0.5 * 5 * 1 ^ 2),
            z := 0 + 0 * (0 * 2 + 0.5 * 5 * 2 ^ 2 + 10 * 3 + 10 * 1 - 0.5 * 5 * 1 ^ 2) } ∧
      last.print_time + last.move_t = 0 + 2 + 3 + 1 :=
  ⟨Or.inl (by norm_num),
   trapq_append_net_motion (trapq_alloc : trapq ℚ) 0 2 3 1 0 0 0 1 0 0 0 10 5
     (Or.inl (by norm_num))⟩

end Trapq

namespace Maxproui

/-! ## Receive side -/

/-- While reception is on and fewer than 97 bytes are stored, a byte that is
no terminator is stored at `tft_receive_pos`, which goes up by one. -/
theorem rx_bytes_replicate_pos (n : Nat) (hn : n ≤ 97) :
    (rx_bytes serial_init (List.replicate n 65)).tft_receive_pos = n ∧
    (rx_bytes serial_init (List.replicate n 65)).tft_receivNewMsg = 1 := by
  induction n with
  | zero => simp [rx_bytes, serial_init]
  | succ k ih =>
    have hk := ih (by omega)
    rw [List.replicate_succ', rx_bytes, List.foldl_append]
    simp only [List.foldl_cons, List.foldl_nil]
    change (maxproui_rx_byte (rx_bytes serial_init (List.replicate k 65)) 65).1.tft_receive_pos
        = k + 1 ∧
      (maxproui_rx_byte (rx_bytes serial_init (List.replicate k 65)) 65).1.tft_receivNewMsg = 1
    have h96 : ¬ (k > 96) := by omega
    simp [maxproui_rx_byte, hk.1, hk.2, RECEIVE_BUFF_SIZE, h96]
    omega

/-- C17, evaluated on the code: after 96 bytes `'A'` from start-up the
terminator `'\n'` makes `maxproui_rx_byte` write the closing 0 at index 96,
outside the 96-byte array; a 97th `'A'` is stored at index 96 as well, and
after 97 bytes the next byte makes it write at index 97 and publish
`tft_dataCount = 97`. -/
theorem maxproui_rx_byte_overrun :
    (maxproui_rx_byte (rx_bytes serial_init (List.replicate 96 65)) 10).2
      = [access.write 96 1] ∧
    ¬ access_in_bounds RECEIVE_BUFF_SIZE (access.write 96 1) ∧
    (maxproui_rx_byte (rx_bytes serial_init (List.replicate 96 65)) 65).2
      = [access.write 96 1] ∧
    (maxproui_rx_byte (rx_bytes serial_init (List.replicate 97 65)) 65).2
      = [access.write 97 1] ∧
    (maxproui_rx_byte (rx_bytes serial_init (List.replicate 97 65)) 65).1.tft_dataCount
      = 97 := by
  obtain ⟨p96, n96⟩ := rx_bytes_replicate_pos 96 (by omega)
  obtain ⟨p97, n97⟩ := rx_bytes_replicate_pos 97 (by omega)
  generalize rx_bytes serial_init (List.replicate 96 65) = s96 at p96 n96 ⊢
  generalize rx_bytes serial_init (List.replicate 97 65) = s97 at p97 n97 ⊢
  refine ⟨?_, ?_, ?_, ?_, ?_⟩
  · simp [maxproui_rx_byte, p96]
  · simp [access_in_bounds, RECEIVE_BUFF_SIZE]
  · simp [maxproui_rx_byte, p96, n96, RECEIVE_BUFF_SIZE]
  · simp [maxproui_rx_byte, p97, RECEIVE_BUFF_SIZE]
  · simp [maxproui_rx_byte, p97, RECEIVE_BUFF_SIZE]

/-- The function `maxproui_send_command` leaves the receive variables alone. -/
theorem send_command_rx_fields (st : serial_state) (data : List Nat) (data_len : Nat) :
    (maxproui_send_command st data data_len).1.tft_receive_buf = st.tft_receive_buf ∧
    (maxproui_send_command st data data_len).1.tft_receive_pos = st.tft_receive_pos ∧
    (maxproui_send_command st data data_len).1.tft_dataCount = st.tft_dataCount ∧
    (maxproui_send_command st data data_len).1.tft_receivNewMsg = st.tft_receivNewMsg := by
  unfold maxproui_send_command
  by_cases h0 : data_len < 1
  · simp [h0]
  · by_cases h1 : st.tft_transmit_pos ≥ st.tft_transmit_max
    · simp only [h0, h1, if_true, if_false]
      split <;> [split; skip] <;> simp
    · simp only [h0, h1, if_true, if_false]
      split <;> [split; skip] <;> simp

/-- With reception off and the receive buffer empty, a call that does not
re-enable reception leaves the four receive variables as they are. -/
theorem run_serial_call_rx_off (st : serial_state) (c : serial_call)
    (hpos : st.tft_receive_pos = 0) (hoff : st.tft_receivNewMsg = 0)
    (hc : call_keeps_rx_off c) :
    (run_serial_call st c).tft_receive_buf = st.tft_receive_buf ∧
    (run_serial_call st c).tft_receive_pos = st.tft_receive_pos ∧
    (run_serial_call st c).tft_dataCount = st.tft_dataCount ∧
    (run_serial_call st c).tft_receivNewMsg = st.tft_receivNewMsg := by
  cases c with
  | rx_byte data =>
    simp only [run_serial_call, maxproui_rx_byte, hpos, hoff, RECEIVE_BUFF_SIZE]
    split <;> simp [hpos, hoff]
  | maxproui_write completed data_len data =>
    have hne : completed ≠ 1 := hc
    simp only [run_serial_call, command_maxproui_write, hne, if_false]
    exact send_command_rx_fields st data data_len

/-- With reception off and the receive buffer empty, every sequence of calls
none of which re-enables reception leaves the four receive variables as they
are. -/
theorem run_serial_calls_rx_off (calls : List serial_call) :
    ∀ st : serial_state, st.tft_receive_pos = 0 → st.tft_receivNewMsg = 0 →
      (∀ c ∈ calls, call_keeps_rx_off c) →
      (run_serial_calls st calls).tft_receive_buf = st.tft_receive_buf ∧
      (run_serial_calls st calls).tft_receive_pos = st.tft_receive_pos ∧
      (run_serial_calls st calls).tft_dataCount = st.tft_dataCount ∧
      (run_serial_calls st calls).tft_receivNewMsg = st.tft_receivNewMsg := by
  induction calls with
  | nil => intro st _ _ _; exact ⟨rfl, rfl, rfl, rfl⟩
  | cons c cs ih =>
    intro st hpos hoff hcs
    have h1 := run_serial_call_rx_off st c hpos hoff (hcs c (List.mem_cons_self _ _))
    have h2 := ih (run_serial_call st c) (h1.2.1.trans hpos) (h1.2.2.2.trans hoff)
      (fun x hx => hcs x (List.mem_cons_of_mem _ hx))
    simp only [run_serial_calls]
    exact ⟨h2.1.trans h1.1, h2.2.1.trans h1.2.1, h2.2.2.1.trans h1.2.2.1,
      h2.2.2.2.trans h1.2.2.2⟩

/-- C18: once `maxproui_rx_byte` has completed a message (a terminator
`'\n'`, `'\r'` or `':'` received with a non-empty buffer, which clears
`tft_receivNewMsg`), every sequence of further `maxproui_rx_byte` calls with
any bytes and of `command_maxproui_write` calls with `completed ≠ 1` leaves
`tft_receive_buf`, `tft_receive_pos` and `tft_dataCount` unchanged and
reception off; a `command_maxproui_write` with `completed = 1` turns it on
again. -/
theorem rx_off_until_write_completed (st : serial_state) (t : Nat)
    (calls : List serial_call)
    (hpos : st.tft_receive_pos ≠ 0) (ht : t = 10 ∨ t = 13 ∨ t = 58)
    (hcalls : ∀ c ∈ calls, call_keeps_rx_off c) :
    (maxproui_rx_byte st t).1.tft_receivNewMsg = 0 ∧
    (run_serial_calls (maxproui_rx_byte st t).1 calls).tft_receive_buf
      = (maxproui_rx_byte st t).1.tft_receive_buf ∧
    (run_serial_calls (maxproui_rx_byte st t).1 calls).tft_receive_pos
      = (maxproui_rx_byte st t).1.tft_receive_pos ∧
    (run_serial_calls (maxproui_rx_byte st t).1 calls).tft_dataCount
      = (maxproui_rx_byte st t).1.tft_dataCount ∧
    (run_serial_calls (maxproui_rx_byte st t).1 calls).tft_receivNewMsg = 0 ∧
    (∀ (data_len : Nat) (data : List Nat),
      (command_maxproui_write (run_serial_calls (maxproui_rx_byte st t).1 calls)
        1 data_len data).1.tft_receivNewMsg = 1) := by
  have hbranch : t = 10 ∨ t = 13 ∨ t = 58 ∨ st.tft_receive_pos > RECEIVE_BUFF_SIZE := by
    rcases ht with h | h | h
    · exact Or.inl h
    · exact Or.inr (Or.inl h)
    · exact Or.inr (Or.inr (Or.inl h))
  have hp : (maxproui_rx_byte st t).1.tft_receive_pos = 0 := by
    simp only [maxproui_rx_byte, hbranch, hpos, if_true, if_false]
  have ho : (maxproui_rx_byte st t).1.tft_receivNewMsg = 0 := by
    simp only [maxproui_rx_byte, hbranch, hpos, if_true, if_false]
  have h := run_serial_calls_rx_off calls (maxproui_rx_byte st t).1 hp ho hcalls
  refine ⟨ho, h.1, h.2.1, h.2.2.1, h.2.2.2.trans ho, ?_⟩
  intro data_len data
  simp [command_maxproui_write]

/-- In the state after `'A'`, `'B'`, the terminator `'\n'` completes a
message of length 2; a further byte, a `maxproui_write` with `completed = 0`
and a further terminator leave the published length at 2. -/
theorem rx_off_until_write_completed_witness :
    (rx_bytes serial_init [65, 66]).tft_receive_pos ≠ 0 ∧
    (10 = 10 ∨ 10 = 13 ∨ 10 = 58) ∧
    (run_serial_calls (maxproui_rx_byte (rx_bytes serial_init [65, 66]) 10).1
      [serial_call.rx_byte 67, serial_call.maxproui_write 0 1 [1],
       serial_call.rx_byte 10]).tft_dataCount
      = (maxproui_rx_byte (rx_bytes serial_init [65, 66]) 10).1.tft_dataCount :=
  have hpos : (rx_bytes serial_init [65, 66]).tft_receive_pos ≠ 0 := by
    simp [rx_bytes, maxproui_rx_byte, serial_init, RECEIVE_BUFF_SIZE]
  ⟨hpos, Or.inl rfl,
   (rx_off_until_write_completed (rx_bytes serial_init [65, 66]) 10
      [serial_call.rx_byte 67, serial_call.maxproui_write 0 1 [1],
       serial_call.rx_byte 10]
      hpos (Or.inl rfl)
      (by
        intro c hc
        simp only [List.mem_cons, List.mem_singleton, List.not_mem_nil, or_false] at hc
        rcases hc with rfl | rfl | rfl <;> simp [call_keeps_rx_off])).2.2.2.1⟩

/-! ## Transmit side -/

/-- After `memcpy` of the whole message behind index `tmax`, the bytes from
`pos` up to the new end are the bytes from `pos` up to `tmax` followed by the
message. -/
theorem memcpy_buf_pending (buf data : List Nat) (pos tmax : Nat)
    (hpos : pos ≤ tmax) (hmax : tmax ≤ buf.length) :
    ((memcpy_buf buf tmax data data.length).drop pos).take (tmax + data.length - pos)
      = (buf.drop pos).take (tmax - pos) ++ data := by
  unfold memcpy_buf
  have h1 : pos ≤ (buf.take tmax).length := by
    rw [List.length_take]; omega
  rw [List.take_length, List.append_assoc, List.drop_append_of_le_length h1,
    List.drop_take, ← List.append_assoc]
  apply List.take_left'
  rw [List.length_append, List.length_take, List.length_drop]
  omega

/-- After `memmove` of `n` bytes from index `tpos` to the front, the first `n`
bytes are the `n` bytes that stood from `tpos` on, and the array keeps its
length. -/
theorem memmove_buf_front (buf : List Nat) (tpos n : Nat) (h : tpos + n ≤ buf.length) :
    (memmove_buf buf 0 tpos n).take n = (buf.drop tpos).take n ∧
    (memmove_buf buf 0 tpos n).length = buf.length := by
  unfold memmove_buf
  have hl : ((buf.drop tpos).take n).length = n := by
    rw [List.length_take, List.length_drop]; omega
  constructor
  · simp only [List.take_zero, List.nil_append, Nat.zero_add]
    exact List.take_left' hl
  · simp only [List.take_zero, List.nil_append, Nat.zero_add, List.length_append, hl,
      List.length_drop]
    omega

/-- What `maxproui_send_command` does to the pending bytes, for a message of
at least one byte and a state whose indices are in order: nothing when the
pending bytes and the message do not fit into the array together, otherwise
the message is put behind them. -/
theorem send_command_pending (st : serial_state) (data : List Nat)
    (hlen : st.tft_transmit_buf.length = TRANSMIT_BUFF_SIZE) (hok : tx_indices_ok st)
    (h1 : 1 ≤ data.length) :
    ((tx_pending st).length + data.length > TRANSMIT_BUFF_SIZE →
      tx_pending (maxproui_send_command st data data.length).1 = tx_pending st) ∧
    ((tx_pending st).length + data.length ≤ TRANSMIT_BUFF_SIZE →
      tx_pending (maxproui_send_command st data data.length).1 = tx_pending st ++ data) := by
  obtain ⟨hpm, hmax⟩ := hok
  have hpl : (tx_pending st).length = st.tft_transmit_max - st.tft_transmit_pos := by
    unfold tx_pending
    rw [List.length_take, List.length_drop]
    omega
  rw [hpl]
  have h0 : ¬ (data.length < 1) := by omega
  unfold TRANSMIT_BUFF_SIZE at *
  by_cases hc : st.tft_transmit_pos ≥ st.tft_transmit_max
  · have hpe : tx_pending st = [] := by
      apply List.eq_nil_of_length_eq_zero
      omega
    by_cases hbig : data.length > 96
    · have e : (maxproui_send_command st data data.length).1
          = { st with tft_transmit_max := 0, tft_transmit_pos := 0 } := by
        simp [maxproui_send_command, h0, hc, hbig, TRANSMIT_BUFF_SIZE]
      rw [e, hpe]
      constructor
      · intro _; simp [tx_pending]
      · intro hle; omega
    · have e : (maxproui_send_command st data data.length).1
          = { st with
              tft_transmit_buf := memcpy_buf st.tft_transmit_buf 0 data data.length,
              tft_transmit_max := data.length % 256,
              tft_transmit_pos := 0 } := by
        simp [maxproui_send_command, h0, hc, hbig, TRANSMIT_BUFF_SIZE]
      rw [e, hpe]
      constructor
      · intro hgt; omega
      · intro _
        have hm : data.length % 256 = data.length := Nat.mod_eq_of_lt (by omega)
        have := memcpy_buf_pending st.tft_transmit_buf data 0 0 (le_refl 0) (Nat.zero_le _)
        simpa [tx_pending, hm] using this
  · have hc' : st.tft_transmit_pos < st.tft_transmit_max := by omega
    by_cases hover : st.tft_transmit_max + data.length > 96
    · by_cases hfull : st.tft_transmit_max + data.length - st.tft_transmit_pos > 96
      · have e : (maxproui_send_command st data data.length).1 = st := by
          simp [maxproui_send_command, h0, hc, hover, hfull, TRANSMIT_BUFF_SIZE]
        rw [e]
        constructor
        · intro _; rfl
        · intro hle; omega
      · have e : (maxproui_send_command st data data.length).1
            = { st with
                tft_transmit_buf :=
                  memcpy_buf
                    (memmove_buf st.tft_transmit_buf 0 st.tft_transmit_pos
                      (st.tft_transmit_max - st.tft_transmit_pos))
                    (st.tft_transmit_max - st.tft_transmit_pos) data data.length,
                tft_transmit_pos := 0,
                tft_transmit_max :=
                  (st.tft_transmit_max - st.tft_transmit_pos + data.length) % 256 } := by
          simp [maxproui_send_command, h0, hc, hover, hfull, TRANSMIT_BUFF_SIZE]
        rw [e]
        constructor
        · intro hgt; omega
        · intro _
          have hm : (st.tft_transmit_max - st.tft_transmit_pos + data.length) % 256
              = st.tft_transmit_max - st.tft_transmit_pos + data.length :=
            Nat.mod_eq_of_lt (by omega)
          have hmv := memmove_buf_front st.tft_transmit_buf st.tft_transmit_pos
            (st.tft_transmit_max - st.tft_transmit_pos) (by omega)
          have hcp := memcpy_buf_pending
            (memmove_buf st.tft_transmit_buf 0 st.tft_transmit_pos
              (st.tft_transmit_max - st.tft_transmit_pos)) data 0
            (st.tft_transmit_max - st.tft_transmit_pos) (Nat.zero_le _) (by omega)
          simp only [List.drop_zero, Nat.sub_zero, hmv.1] at hcp
          simp only [tx_pending, hm, List.drop_zero, Nat.sub_zero]
          exact hcp
    · have e : (maxproui_send_command st data data.length).1
          = { st with
              tft_transmit_buf :=
                memcpy_buf st.tft_transmit_buf st.tft_transmit_max data data.length,
              tft_transmit_max := (st.tft_transmit_max + data.length) % 256 } := by
        simp [maxproui_send_command, h0, hc, hover, TRANSMIT_BUFF_SIZE]
      rw [e]
      constructor
      · intro hgt; omega
      · intro _
        have hm : (st.tft_transmit_max + data.length) % 256
            = st.tft_transmit_max + data.length := Nat.mod_eq_of_lt (by omega)
        have hcp := memcpy_buf_pending st.tft_transmit_buf data st.tft_transmit_pos
          st.tft_transmit_max hpm (by omega)
        simp only [tx_pending, hm]
        exact hcp

/-- C19: with the pending transmit bytes
`tft_transmit_buf[tft_transmit_pos .. tft_transmit_max)`, for every state with
`tft_transmit_pos ≤ tft_transmit_max ≤ 96` and every message of at least one
byte (so of length 1..255 too), `maxproui_send_command` leaves the pending
bytes unchanged exactly when pending length + message length > 96, and
otherwise makes them the old pending bytes followed by the message; a
successful `maxproui_get_tx_byte` returns the first pending byte and removes
it. -/
theorem tx_pending_fifo (st : serial_state) (data : List Nat) (data_len : Nat)
    (hlen : st.tft_transmit_buf.length = TRANSMIT_BUFF_SIZE) (hok : tx_indices_ok st)
    (hd : data.length = data_len) (h1 : 1 ≤ data_len) :
    (tx_pending (maxproui_send_command st data data_len).1 = tx_pending st ↔
      (tx_pending st).length + data_len > TRANSMIT_BUFF_SIZE) ∧
    ((tx_pending st).length + data_len ≤ TRANSMIT_BUFF_SIZE →
      tx_pending (maxproui_send_command st data data_len).1 = tx_pending st ++ data) ∧
    ((maxproui_get_tx_byte st).ret = 0 →
      ∃ b : Nat, (maxproui_get_tx_byte st).pdata = some b ∧
        tx_pending st = b :: tx_pending (maxproui_get_tx_byte st).state) := by
  subst hd
  have hsend := send_command_pending st data hlen hok h1
  refine ⟨⟨?_, hsend.1⟩, hsend.2, ?_⟩
  · intro heq
    by_contra hn
    have happ := hsend.2 (by omega)
    rw [heq] at happ
    have hl := congrArg List.length happ
    rw [List.length_append] at hl
    omega
  · obtain ⟨hpm, hmax⟩ := hok
    unfold TRANSMIT_BUFF_SIZE at *
    by_cases hc : st.tft_transmit_pos ≥ st.tft_transmit_max
    · intro hret
      simp [maxproui_get_tx_byte, hc] at hret
    · intro _
      have hlt : st.tft_transmit_pos < st.tft_transmit_buf.length := by omega
      have hm : (st.tft_transmit_pos + 1) % 256 = st.tft_transmit_pos + 1 :=
        Nat.mod_eq_of_lt (by omega)
      refine ⟨st.tft_transmit_buf.getD st.tft_transmit_pos 0, ?_, ?_⟩
      · simp [maxproui_get_tx_byte, hc]
      · have hsub : st.tft_transmit_max - st.tft_transmit_pos
            = (st.tft_transmit_max - (st.tft_transmit_pos + 1)) + 1 := by omega
        simp only [maxproui_get_tx_byte, hc, if_false, tx_pending, hm]
        rw [hsub, List.drop_eq_getElem_cons hlt, List.take_succ_cons]
        simp [List.getD_eq_getElem?_getD, List.getElem?_eq_getElem hlt]

/-- From start-up, `[1, 2]` and then `[3]` are sent: the state before the
second send has its indices in order, the second message goes behind the
first, and the Tx interrupt then gets the byte 1. -/
theorem tx_pending_fifo_witness :
    (maxproui_send_command serial_init [1, 2] 2).1.tft_transmit_buf.length
      = TRANSMIT_BUFF_SIZE ∧
    tx_indices_ok (maxproui_send_command serial_init [1, 2] 2).1 ∧
    tx_pending (maxproui_send_command serial_init [1, 2] 2).1 = [1, 2] ∧
    tx_pending (maxproui_send_command (maxproui_send_command serial_init [1, 2] 2).1 [3] 1).1
      = [1, 2] ++ [3] :=
  have hlen : (maxproui_send_command serial_init [1, 2] 2).1.tft_transmit_buf.length
      = TRANSMIT_BUFF_SIZE := by
    simp [maxproui_send_command, serial_init, memcpy_buf, TRANSMIT_BUFF_SIZE]
  have hok : tx_indices_ok (maxproui_send_command serial_init [1, 2] 2).1 := by
    simp [maxproui_send_command, serial_init, tx_indices_ok, TRANSMIT_BUFF_SIZE]
  have hp : tx_pending (maxproui_send_command serial_init [1, 2] 2).1 = [1, 2] := by
    simp [maxproui_send_command, serial_init, tx_pending, memcpy_buf, TRANSMIT_BUFF_SIZE]
  ⟨hlen, hok, hp,
   hp ▸ (tx_pending_fifo (maxproui_send_command serial_init [1, 2] 2).1 [3] 1 hlen hok rfl
      (le_refl 1)).2.1 (by rw [hp]; simp [TRANSMIT_BUFF_SIZE])⟩

/-- C20: the predicate `tft_transmit_pos ≤ tft_transmit_max ≤ 96` holds at
start-up and is preserved by `maxproui_send_command` for every message length
and by `maxproui_get_tx_byte`; every access of the two functions to
`tft_transmit_buf` (the `memmove`, the `memcpy`, the read of the byte) stays
inside the 96 bytes; `maxproui_get_tx_byte` returns -1 exactly when
`tft_transmit_pos ≥ tft_transmit_max`. -/
theorem tx_indices_preserved :
    tx_indices_ok serial_init ∧
    (∀ (st : serial_state) (data : List Nat) (data_len : Nat), tx_indices_ok st →
      tx_indices_ok (maxproui_send_command st data data_len).1 ∧
      ∀ a ∈ (maxproui_send_command st data data_len).2,
        access_in_bounds TRANSMIT_BUFF_SIZE a) ∧
    (∀ st : serial_state, tx_indices_ok st →
      tx_indices_ok (maxproui_get_tx_byte st).state ∧
      ∀ a ∈ (maxproui_get_tx_byte st).accesses, access_in_bounds TRANSMIT_BUFF_SIZE a) ∧
    (∀ st : serial_state,
      (maxproui_get_tx_byte st).ret = -1 ↔ st.tft_transmit_pos ≥ st.tft_transmit_max) := by
  refine ⟨?_, ?_, ?_, ?_⟩
  · simp [tx_indices_ok, serial_init, TRANSMIT_BUFF_SIZE]
  · intro st data data_len hok
    obtain ⟨hpm, hmax⟩ := hok
    unfold TRANSMIT_BUFF_SIZE at *
    unfold maxproui_send_command tx_indices_ok
    by_cases h0 : data_len < 1
    · simp [h0, hpm, hmax, TRANSMIT_BUFF_SIZE]
    · by_cases hc : st.tft_transmit_pos ≥ st.tft_transmit_max
      · by_cases hbig : data_len > 96
        · simp [h0, hc, hbig, TRANSMIT_BUFF_SIZE]
        · have hm : data_len % 256 = data_len := Nat.mod_eq_of_lt (by omega)
          simp [h0, hc, hbig, TRANSMIT_BUFF_SIZE, access_in_bounds, hm]
          omega
      · by_cases hover : st.tft_transmit_max + data_len > 96
        · by_cases hfull : st.tft_transmit_max + data_len - st.tft_transmit_pos > 96
          · simp [h0, hc, hover, hfull, TRANSMIT_BUFF_SIZE, hpm, hmax]
          · have hm : (st.tft_transmit_max - st.tft_transmit_pos + data_len) % 256
                = st.tft_transmit_max - st.tft_transmit_pos + data_len :=
              Nat.mod_eq_of_lt (by omega)
            simp [h0, hc, hover, hfull, TRANSMIT_BUFF_SIZE, access_in_bounds, hm]
            omega
        · have hm : (st.tft_transmit_max + data_len) % 256
              = st.tft_transmit_max + data_len := Nat.mod_eq_of_lt (by omega)
          simp [h0, hc, hover, TRANSMIT_BUFF_SIZE, access_in_bounds, hm]
          omega
  · intro st hok
    obtain ⟨hpm, hmax⟩ := hok
    unfold TRANSMIT_BUFF_SIZE at *
    unfold maxproui_get_tx_byte tx_indices_ok
    by_cases hc : st.tft_transmit_pos ≥ st.tft_transmit_max
    · simp [hc, hpm, hmax, TRANSMIT_BUFF_SIZE]
    · have hm : (st.tft_transmit_pos + 1) % 256 = st.tft_transmit_pos + 1 :=
        Nat.mod_eq_of_lt (by omega)
      simp [hc, TRANSMIT_BUFF_SIZE, access_in_bounds, hm]
      omega
  · intro st
    unfold maxproui_get_tx_byte
    by_cases hc : st.tft_transmit_pos ≥ st.tft_transmit_max
    · simp [hc]
    · simp [hc]

/-- The indices are in order at start-up and after a first message of two
bytes, and the `memcpy` of that message stays inside the array. -/
theorem tx_indices_preserved_witness :
    tx_indices_ok serial_init ∧
    tx_indices_ok (maxproui_send_command serial_init [1, 2] 2).1 ∧
    (∀ a ∈ (maxproui_send_command serial_init [1, 2] 2).2,
      access_in_bounds TRANSMIT_BUFF_SIZE a) :=
  ⟨tx_indices_preserved.1,
   tx_indices_preserved.2.1 serial_init [1, 2] 2 tx_indices_preserved.1⟩

end Maxproui
